import Mathlib

/-!
Verification of the multi-tenant parallel inference orchestrator of the
gnc-phase1-backend service.

Each definition below is a shallow embedding of the corresponding JavaScript
function from the repository (file and line references are given in the doc
comments).  JavaScript `Map` objects are modelled as association lists with
unique keys, numbers used as counters are modelled as `Int` (so that claims
about negativity are meaningful), timestamps as `Int` milliseconds, and
strings as `String` or `List Char`.  The theorems at the end of the file
settle the specification claims.
-/

/-- Lookup in a JS `Map` modelled as an association list (`Map.get`). -/
def mapGet {α : Type} (m : List (String × α)) (k : String) : Option α :=
  (m.find? (fun p => p.1 == k)).map (fun p => p.2)

/-- Update in a JS `Map` modelled as an association list (`Map.set`):
replace the value when the key is present, append the pair otherwise. -/
def mapSet {α : Type} (m : List (String × α)) (k : String) (v : α) : List (String × α) :=
  if (m.find? (fun p => p.1 == k)).isSome then
    m.map (fun p => if p.1 == k then (p.1, v) else p)
  else m ++ [(k, v)]

/-- One session record of `sessionData` in src/services/sessionStore.js. -/
structure SessionData where
  userId : String
  images : List String
deriving DecidableEq

/-- State of the `SessionStore` singleton (src/services/sessionStore.js):
`sessionData` (sessionId -> session info) and `imageOwnership`
(filename -> userId). -/
structure SessionStoreState where
  sessionData : List (String × SessionData)
  imageOwnership : List (String × String)
deriving DecidableEq

/-- `registerImage` (sessionStore.js lines 23-29): when the session exists,
add the filename to the session's image set and record the owner in
`imageOwnership`. -/
def registerImage (s : SessionStoreState) (sessionId filename userId : String) :
    SessionStoreState :=
  match mapGet s.sessionData sessionId with
  | some sd =>
    { sessionData := mapSet s.sessionData sessionId { sd with images := sd.images ++ [filename] },
      imageOwnership := mapSet s.imageOwnership filename userId }
  | none => s

/-- `validateImageAccess` (sessionStore.js lines 31-34): the owner looked up in
`imageOwnership` must be (strictly) equal to the requesting user id; a missing
entry compares as `undefined === userId`, which is false for an authenticated
(string) user id. -/
def validateImageAccess (ownership : List (String × String)) (userId filename : String) :
    Bool :=
  mapGet ownership filename == some userId

/-- One entry of `activeProcessingSessions` in src/controllers/pdfController.js:
the owning user and the cooperative cancellation flag that the session's
`cancel` closure sets. -/
structure ProcSession where
  userId : String
  cancelRequested : Bool
deriving DecidableEq

/-- Outcome of the `cancelProcessing` endpoint (HTTP status it answers with). -/
inductive CancelResult where
  | badRequest
  | notFound
  | accessDenied
  | ok
deriving DecidableEq

/-- `cancelProcessing` (pdfController.js lines 718-745): 400 without a session
id, 404 when the session is unknown, 403 when the caller is not the owner
(leaving all state untouched), otherwise the session's cancellation flag is
set and the call succeeds. -/
def cancelProcessing (sessions : List (String × ProcSession)) (userId : String)
    (sessionId : Option String) : CancelResult × List (String × ProcSession) :=
  match sessionId with
  | none => (CancelResult.badRequest, sessions)
  | some sid =>
    if sid = "" then (CancelResult.badRequest, sessions)
    else
      match mapGet sessions sid with
      | none => (CancelResult.notFound, sessions)
      | some s =>
        if s.userId ≠ userId then (CancelResult.accessDenied, sessions)
        else (CancelResult.ok, mapSet sessions sid { s with cancelRequested := true })

/-- State of `UltraFastUserManager` together with `userProcessingQueues`
(pdfController.js lines 10-27): per-user active counts and the global active
count.  Counts are `Int` so that the non-negativity claims are meaningful. -/
structure UserManagerState where
  queues : List (String × Int)
  globalActiveCount : Int
deriving DecidableEq

/-- `maxConcurrentPerUser` (pdfController.js line 24). -/
def maxConcurrentPerUser : Int := 3

/-- `maxGlobalConcurrent` (pdfController.js line 25). -/
def maxGlobalConcurrent : Int := 15

/-- `canUserStartProcessing` (pdfController.js lines 29-37): the user's active
count (0 when the user has no queue) is below the per-user cap and the global
active count is below the global cap. -/
def canUserStartProcessing (s : UserManagerState) (userId : String) : Bool :=
  let userActiveCount := (mapGet s.queues userId).getD 0
  userActiveCount < maxConcurrentPerUser && s.globalActiveCount < maxGlobalConcurrent

/-- `startUserProcessing` (pdfController.js lines 39-49): create the user's
queue with count 0 when absent, then increment the user's count and the global
count. -/
def startUserProcessing (s : UserManagerState) (userId : String) : UserManagerState :=
  let queues := if (s.queues.find? (fun p => p.1 == userId)).isSome
    then s.queues else s.queues ++ [(userId, 0)]
  { queues := queues.map (fun p => if p.1 == userId then (p.1, p.2 + 1) else p),
    globalActiveCount := s.globalActiveCount + 1 }

/-- `endUserProcessing` (pdfController.js lines 51-59): decrement both the
user's and the global count only when the user's queue exists and its active
count is positive; otherwise do nothing. -/
def endUserProcessing (s : UserManagerState) (userId : String) : UserManagerState :=
  match mapGet s.queues userId with
  | some c =>
    if 0 < c then
      { queues := s.queues.map (fun p => if p.1 == userId then (p.1, p.2 - 1) else p),
        globalActiveCount := s.globalActiveCount - 1 }
    else s
  | none => s

/-- A call into the concurrency governor: a job start or a release. -/
inductive GovOp where
  | start (userId : String)
  | release (userId : String)

/-- Run a sequence of governor calls (any interleaving of
`startUserProcessing` and `endUserProcessing` across users, including repeated
releases for the same reservation). -/
def runGovOps (s : UserManagerState) : List GovOp → UserManagerState
  | [] => s
  | GovOp.start u :: rest => runGovOps (startUserProcessing s u) rest
  | GovOp.release u :: rest => runGovOps (endUserProcessing s u) rest

/-- Outcome of the admission step of `processPDF`. -/
inductive SubmitResult where
  | admitted
  | capacityError
  | validationError
deriving DecidableEq

/-- Admission step of `processPDF` (pdfController.js lines 99-141): the
capacity gate `canUserStartProcessing` answers 429 immediately with no state
change; a PDF failing validation answers 400 with no state change; otherwise
`startUserProcessing` reserves the slot.  The external PDF validation outcome
is the boolean `pdfValid`. -/
def processPDFAdmission (s : UserManagerState) (userId : String) (pdfValid : Bool) :
    SubmitResult × UserManagerState :=
  if !canUserStartProcessing s userId then (SubmitResult.capacityError, s)
  else if !pdfValid then (SubmitResult.validationError, s)
  else (SubmitResult.admitted, startUserProcessing s userId)

/-- Outcome of the admission step of `processSelectedImages`. -/
inductive SelectedSubmitResult where
  | noPagesError
  | invalidSessionError
  | started
deriving DecidableEq

/-- Admission step of `processSelectedImages` (pdfController.js lines
366-390): after the page-selection check and the session-ownership check it
calls `startUserProcessing` directly — there is no capacity check on this
path. -/
def processSelectedImagesAdmission (s : UserManagerState) (userId : String)
    (pagesNonEmpty sessionValid : Bool) : SelectedSubmitResult × UserManagerState :=
  if !pagesNonEmpty then (SelectedSubmitResult.noPagesError, s)
  else if !sessionValid then (SelectedSubmitResult.invalidSessionError, s)
  else (SelectedSubmitResult.started, startUserProcessing s userId)

/-- Sliding-window usage data for one API key: a `keyUsage` entry of
`UltraFastRateLimiter` (src/services/geminiService.js lines 127-133).
Timestamps are `Date.now()` milliseconds. -/
structure KeyData where
  requests : List Int
  burstRequests : List Int
deriving DecidableEq

/-- `maxRequestsPerMinute` (geminiService.js line 130). -/
def maxRequestsPerMinute : Nat := 60

/-- `burstLimit` (geminiService.js line 131). -/
def burstLimit : Nat := 10

/-- `burstWindow` in milliseconds (geminiService.js line 132). -/
def burstWindow : Int := 10000

/-- The pruning filter applied to both windows (geminiService.js lines
144-145): keep the timestamps strictly younger than the window. -/
def pruneWindow (now w : Int) (l : List Int) : List Int :=
  l.filter (fun time => now - time < w)

/-- One evaluation of `waitIfNeeded` at time `now` (geminiService.js lines
135-175).  `none` means the call suspends (`setTimeout`) and re-enters later
with a fresh `now`; `some kd` means the call completes: it records the request
by appending `now` to both pruned windows.  The burst branch and the rate
branch each fire when the pruned window is full and the computed wait time is
positive, exactly as in the source. -/
def waitIfNeededStep (kd : KeyData) (now : Int) : Option KeyData :=
  let requests := pruneWindow now 60000 kd.requests
  let bursts := pruneWindow now burstWindow kd.burstRequests
  if burstLimit ≤ bursts.length ∧ 0 < burstWindow - (now - bursts.headD 0) + 100 then
    none
  else if maxRequestsPerMinute ≤ requests.length ∧
      0 < 60000 - (now - requests.headD 0) + 200 then
    none
  else
    some { requests := requests ++ [now], burstRequests := bursts ++ [now] }

/-- The load metric of `getBestAvailableKey` (geminiService.js line 189):
`recentRequests.length + recentBursts.length * 2`, both windows pruned at
`now`.  `usage i` is `keyUsage.get(i)` with the `|| { requests: [],
burstRequests: [] }` default folded in. -/
def keyLoad (usage : Nat → KeyData) (now : Int) (i : Nat) : Nat :=
  (pruneWindow now 60000 (usage i).requests).length +
    (pruneWindow now burstWindow (usage i).burstRequests).length * 2

/-- One iteration of the `getBestAvailableKey` loop (geminiService.js lines
183-195); the accumulator is the running `(bestKey, minRequests)` pair with
`none` standing for the initial `Infinity`. -/
def bestKeyStep (usage : Nat → KeyData) (now : Int) (acc : Nat × Option Nat) (i : Nat) :
    Nat × Option Nat :=
  match acc.2 with
  | none => (i, some (keyLoad usage now i))
  | some m => if keyLoad usage now i < m then (i, some (keyLoad usage now i)) else acc

/-- The `for` loop of `getBestAvailableKey` over a list of key indices. -/
def bestKeyLoop (usage : Nat → KeyData) (now : Int) :
    List Nat → Nat × Option Nat → Nat × Option Nat
  | [], acc => acc
  | i :: rest, acc => bestKeyLoop usage now rest (bestKeyStep usage now acc i)

/-- `getBestAvailableKey` (geminiService.js lines 177-198): scan keys
`0 .. numKeys-1` keeping the first index of strictly smallest load, starting
from `bestKey = 0`, `minRequests = Infinity`. -/
def getBestAvailableKey (numKeys : Nat) (usage : Nat → KeyData) (now : Int) : Nat :=
  (bestKeyLoop usage now (List.range numKeys) (0, none)).1

/-- Prefix test on character lists (our own spelled-out form of JS
`String.prototype.includes` matching at one position). -/
def charsMatchAt : List Char → List Char → Bool
  | [], _ => true
  | _ :: _, [] => false
  | n :: ns, h :: hs => n == h && charsMatchAt ns hs

/-- Substring test on character lists: the needle matches at some position of
the haystack. -/
def charsContain (needle : List Char) : List Char → Bool
  | [] => charsMatchAt needle []
  | c :: rest => charsMatchAt needle (c :: rest) || charsContain needle rest

/-- JS `hay.includes(needle)` on strings. -/
def strContains (hay needle : String) : Bool :=
  charsContain needle.data hay.data

/-- The retryability test of `retryUltraFast` (geminiService.js lines
243-247): the error message signals upstream throttling (429, rate), quota
exhaustion (quota), or a transient network condition (fetch, network). -/
def isRetryableError (msg : String) : Bool :=
  strContains msg "429" || strContains msg "quota" || strContains msg "rate" ||
    strContains msg "fetch" || strContains msg "network"

/-- The attempt loop of `retryUltraFast` (geminiService.js lines 233-262).
`fn t k` is the outcome of invoking `fn` at attempt `t` with key index `k`
(the source's `fn(keyIndex)`, indexed by call number because the closed-over
world may change between calls); `pick t` is the key chosen for attempt `t`
(in the source, `ultraFastLimiter.getBestAvailableKey()` evaluated afresh
inside the loop body).  The last argument is the remaining number of loop
iterations (`maxRetries - attempt`); the fuel-exhausted case corresponds to
the loop never running (`throw lastError` with `lastError = null`, reachable
only when `maxRetries = 0`). -/
def retryLoop {α : Type} (fn : Nat → Nat → Except String α) (pick : Nat → Nat)
    (maxRetries : Nat) : Nat → Nat → Except String α
  | _, 0 => Except.error ""
  | attempt, fuel + 1 =>
    match fn attempt (pick attempt) with
    | Except.ok a => Except.ok a
    | Except.error e =>
      if isRetryableError e = true ∧ attempt + 1 < maxRetries then
        retryLoop fn pick maxRetries (attempt + 1) fuel
      else Except.error e

/-- `retryUltraFast` (geminiService.js lines 233-262): run the attempt loop
from attempt 0 with `maxRetries` iterations available. -/
def retryUltraFast {α : Type} (fn : Nat → Nat → Except String α) (pick : Nat → Nat)
    (maxRetries : Nat) : Except String α :=
  retryLoop fn pick maxRetries 0 maxRetries

/-- A JSON value, as produced by the `JSON.parse` builtin (numbers kept as
their raw character sequence; the claims never inspect numeric values). -/
inductive JsonVal where
  | jnull
  | jbool (b : Bool)
  | jnum (raw : List Char)
  | jstr (s : List Char)
  | jarr (elems : List JsonVal)
  | jobj (members : List (List Char × JsonVal))
deriving BEq

/-- JSON whitespace (ECMA-404). -/
def isJsonWs (c : Char) : Bool :=
  c == ' ' || c == '\t' || c == '\n' || c == '\r'

/-- Skip JSON whitespace. -/
def skipWs (cs : List Char) : List Char :=
  cs.dropWhile isJsonWs

/-- ASCII digit test. -/
def isDigitChar (c : Char) : Bool :=
  '0' ≤ c && c ≤ '9'

/-- Body of a JSON string: consume up to the closing quote, keeping escape
pairs raw (escape-sequence validation of the builtin is not modelled; the
claims never depend on string contents). -/
def parseStringBody : Nat → List Char → Option (List Char × List Char)
  | 0, _ => none
  | _ + 1, [] => none
  | fuel + 1, c :: rest =>
    if c == '"' then some ([], rest)
    else if c == '\\' then
      match rest with
      | [] => none
      | e :: rest2 =>
        (parseStringBody fuel rest2).map (fun r => (c :: e :: r.1, r.2))
    else (parseStringBody fuel rest).map (fun r => (c :: r.1, r.2))

/-- A JSON number: optional minus, integer part with the leading-zero rule,
optional fraction, optional exponent. -/
def parseNumberChars (cs : List Char) : Option (List Char × List Char) :=
  let (neg, cs1) := match cs with
    | '-' :: r => (['-'], r)
    | _ => (([] : List Char), cs)
  match cs1 with
  | [] => none
  | c :: rest =>
    if !isDigitChar c then none
    else
      let (intPart, afterInt) :=
        if c == '0' then ([c], rest)
        else (c :: rest.takeWhile isDigitChar, rest.dropWhile isDigitChar)
      let (fracPart, afterFrac) := match afterInt with
        | '.' :: r =>
          if (r.takeWhile isDigitChar).isEmpty then (none, afterInt)
          else (some ('.' :: r.takeWhile isDigitChar), r.dropWhile isDigitChar)
        | _ => (none, afterInt)
      match fracPart, afterInt with
      | none, '.' :: _ => none
      | _, _ =>
        let (expPart, afterExp) := match afterFrac with
          | e :: r =>
            if e == 'e' || e == 'E' then
              let (sgn, r2) := match r with
                | s :: r2 => if s == '+' || s == '-' then ([s], r2) else (([] : List Char), r)
                | [] => (([] : List Char), r)
              if (r2.takeWhile isDigitChar).isEmpty then (none, afterFrac)
              else (some (e :: (sgn ++ r2.takeWhile isDigitChar)), r2.dropWhile isDigitChar)
            else (none, afterFrac)
          | [] => (none, afterFrac)
        match expPart, afterFrac with
        | none, e :: _ =>
          if e == 'e' || e == 'E' then none
          else some (neg ++ intPart ++ (fracPart.getD []) ++ [], afterFrac)
        | _, _ =>
          some (neg ++ intPart ++ (fracPart.getD []) ++ (expPart.getD []), afterExp)

mutual

/-- Recursive-descent model of the `JSON.parse` builtin (ECMA-404): one JSON
value, returning the remaining input.  The first argument is fuel. -/
def parseValue : Nat → List Char → Option (JsonVal × List Char)
  | 0, _ => none
  | fuel + 1, cs =>
    match skipWs cs with
    | 'n' :: 'u' :: 'l' :: 'l' :: rest => some (JsonVal.jnull, rest)
    | 't' :: 'r' :: 'u' :: 'e' :: rest => some (JsonVal.jbool true, rest)
    | 'f' :: 'a' :: 'l' :: 's' :: 'e' :: rest => some (JsonVal.jbool false, rest)
    | '"' :: rest =>
      (parseStringBody (rest.length + 1) rest).map (fun r => (JsonVal.jstr r.1, r.2))
    | '[' :: rest => parseArrayAux fuel rest []
    | '{' :: rest => parseObjAux fuel rest []
    | other => (parseNumberChars other).map (fun r => (JsonVal.jnum r.1, r.2))

/-- Elements of a JSON array after `[` or after a `,`; `acc` holds the
elements parsed so far. -/
def parseArrayAux : Nat → List Char → List JsonVal → Option (JsonVal × List Char)
  | 0, _, _ => none
  | fuel + 1, cs, acc =>
    match acc, skipWs cs with
    | [], ']' :: rest => some (JsonVal.jarr [], rest)
    | _, cs2 =>
      match parseValue fuel cs2 with
      | none => none
      | some (v, rest) =>
        match skipWs rest with
        | ',' :: rest2 => parseArrayAux fuel rest2 (acc ++ [v])
        | ']' :: rest2 => some (JsonVal.jarr (acc ++ [v]), rest2)
        | _ => none

/-- Members of a JSON object after `{` or after a `,`. -/
def parseObjAux : Nat → List Char → List (List Char × JsonVal) →
    Option (JsonVal × List Char)
  | 0, _, _ => none
  | fuel + 1, cs, acc =>
    match acc, skipWs cs with
    | [], '}' :: rest => some (JsonVal.jobj [], rest)
    | _, cs2 =>
      match cs2 with
      | '"' :: rest =>
        match parseStringBody (rest.length + 1) rest with
        | none => none
        | some (key, rest2) =>
          match skipWs rest2 with
          | ':' :: rest3 =>
            match parseValue fuel rest3 with
            | none => none
            | some (v, rest4) =>
              match skipWs rest4 with
              | ',' :: rest5 => parseObjAux fuel rest5 (acc ++ [(key, v)])
              | '}' :: rest5 => some (JsonVal.jobj (acc ++ [(key, v)]), rest5)
              | _ => none
          | _ => none
      | _ => none

end

/-- The `JSON.parse` builtin: parse one value and require the rest of the
input to be whitespace, otherwise fail (throw). -/
def jsonParse (cs : List Char) : Option JsonVal :=
  match parseValue (cs.length + 2) cs with
  | some (v, rest) => if (skipWs rest).isEmpty then some v else none
  | none => none

/-- JS `String.prototype.trim` (whitespace at both ends; modelled for the
ASCII whitespace the service produces). -/
def trimChars (cs : List Char) : List Char :=
  ((cs.dropWhile isJsonWs).reverse.dropWhile isJsonWs).reverse

/-- `cleanText.startsWith('[')`. -/
def startsWithOpenBracket : List Char → Bool
  | '[' :: _ => true
  | _ => false

/-- `cleanText.endsWith(']')`. -/
def endsWithCloseBracket (cs : List Char) : Bool :=
  match cs.getLast? with
  | some ']' => true
  | _ => false

/-- The greedy regex `/\[[\s\S]*\]/` of parseGeminiResponse (geminiService.js
line 111): the segment from the first `[` to the last `]` of the text, when
not empty. -/
def extractArraySegment (cs : List Char) : Option (List Char) :=
  match cs.findIdx? (fun c => c == '[') with
  | none => none
  | some i =>
    match cs.reverse.findIdx? (fun c => c == ']') with
    | none => none
    | some rj =>
      let j := cs.length - 1 - rj
      if i < j then some ((cs.drop i).take (j - i + 1)) else none

/-- The error value of the catch branch of parseGeminiResponse
(geminiService.js line 122); the source appends the exception's message. -/
def parseErrorMsg : String := "Parse error"

/-- The regex fallback of parseGeminiResponse (geminiService.js lines
110-123): extract the bracketed segment of the raw text; a parse exception
lands in the catch branch; no segment, or a non-array parse, falls through to
the empty-response return. -/
def geminiFallback (text : List Char) : List JsonVal × Option String :=
  match extractArraySegment text with
  | some seg =>
    match jsonParse seg with
    | some (JsonVal.jarr a) => (a, none)
    | some _ => ([], none)
    | none => ([], some parseErrorMsg)
  | none => ([], none)

/-- `parseGeminiResponse` (geminiService.js lines 98-124): try a direct parse
of the trimmed text when it is bracket-delimited (an exception lands in the
catch branch, returning an empty array with a non-null error); otherwise fall
back to the regex extraction; an empty response is valid and is not an
error. -/
def parseGeminiResponse (text : List Char) : List JsonVal × Option String :=
  let cleanText := trimChars text
  if startsWithOpenBracket cleanText && endsWithCloseBracket cleanText then
    match jsonParse cleanText with
    | some (JsonVal.jarr a) => (a, none)
    | some _ => geminiFallback text
    | none => ([], some parseErrorMsg)
  else geminiFallback text

/-- Whether some substring of the text parses as a JSON array (the literal
reading of the text containing a parseable JSON array). -/
def containsParsableJsonArray (text : List Char) : Bool :=
  (List.range (text.length + 1)).any (fun i =>
    (List.range (text.length + 1)).any (fun j =>
      match jsonParse ((text.drop i).take j) with
      | some (JsonVal.jarr _) => true
      | _ => false))

/-- A selected page as assembled by the image-loading loop of
`processSelectedImages` (pdfController.js lines 421-473): either a
successfully loaded image (base64 and url present) or a load failure with
`conversionError` set. -/
structure SelPage where
  pageNumber : Nat
  base64Present : Bool
  imageUrlPresent : Bool
  conversionError : Option String
  success : Bool
deriving DecidableEq

/-- The valid-image filter (pdfController.js lines 476-482):
`img.base64 && img.imageUrl && !img.conversionError && img.success`. -/
def hasValidData (p : SelPage) : Bool :=
  p.base64Present && p.imageUrlPresent && p.conversionError.isNone && p.success

/-- The shape the image-loading loop guarantees for every element it pushes
(pdfController.js lines 421-473): a success entry has data and no error, a
failure entry has a conversion error. -/
@[reducible] def WellFormedPage (p : SelPage) : Prop :=
  (p.success = true → p.base64Present = true ∧ p.imageUrlPresent = true ∧
    p.conversionError = none) ∧
  (p.success = false → p.conversionError.isSome = true)

/-- The seven category buckets (`collectedResult` shape, pdfController.js
lines 496-499), generic in the item type. -/
structure CatData (Item : Type) where
  labour : List Item
  material : List Item
  equipment : List Item
  consumables : List Item
  subtrade : List Item
  labourTimesheet : List Item
  equipmentLog : List Item
deriving DecidableEq

/-- The all-empty category record used for failed pages. -/
def emptyCatData (Item : Type) : CatData Item :=
  { labour := [], material := [], equipment := [], consumables := [],
    subtrade := [], labourTimesheet := [], equipmentLog := [] }

/-- One entry of `analysisResults` as returned by `analyzeImagesUltraFast`
(geminiService.js lines 295-323): the parsed item array, the raw output and
the per-page error. -/
structure AnalysisRes where
  parsed : List JsonVal
  raw : String
  error : Option String

/-- One entry of `allPagesData` (pdfController.js lines 541-552 and
598-606). -/
structure PageData (Item : Type) where
  pageNumber : Nat
  data : CatData Item
  rawOutput : String
  error : Option String
deriving DecidableEq

/-- Tag every item of every category with the page number, as the
`pageResultWithPageNumber` maps do (pdfController.js lines 588-596); the
tagging of one item is the abstract `tag`. -/
def tagCat {Item : Type} (tag : Item → Nat → Item) (pn : Nat) (c : CatData Item) :
    CatData Item :=
  { labour := c.labour.map (fun it => tag it pn),
    material := c.material.map (fun it => tag it pn),
    equipment := c.equipment.map (fun it => tag it pn),
    consumables := c.consumables.map (fun it => tag it pn),
    subtrade := c.subtrade.map (fun it => tag it pn),
    labourTimesheet := c.labourTimesheet.map (fun it => tag it pn),
    equipmentLog := c.equipmentLog.map (fun it => tag it pn) }

/-- The `errorPageData` built for a page that failed to load
(pdfController.js lines 541-552): empty category data and the error field
set. -/
def errorPage {Item : Type} (p : SelPage) : PageData Item :=
  { pageNumber := p.pageNumber,
    data := emptyCatData Item,
    rawOutput := "Conversion Error: " ++ (p.conversionError.getD ""),
    error := some ("Failed to load page: " ++ (p.conversionError.getD "")) }

/-- The `processedPageData` built for an analysed page (pdfController.js
lines 584-652): `calculationService.processPageData` on the parsed items
(`calcFn`; its exception is caught and becomes an error entry), tagged with the
page number. -/
def processedPage {Item : Type} (calcFn : List JsonVal → Except String (CatData Item))
    (tag : Item → Nat → Item) (p : SelPage) (ar : AnalysisRes) : PageData Item :=
  match calcFn ar.parsed with
  | Except.ok catData =>
    { pageNumber := p.pageNumber,
      data := tagCat tag p.pageNumber catData,
      rawOutput := ar.raw,
      error := ar.error }
  | Except.error msg =>
    { pageNumber := p.pageNumber,
      data := emptyCatData Item,
      rawOutput := "Processing Error: " ++ msg,
      error := some ("Failed to process results: " ++ msg) }

/-- The result-processing loop of `processSelectedImages` (pdfController.js
lines 476-655).  `g` is the per-image outcome of the inference service
(`analyzeImagesUltraFast` fills `results[i]` for `validImages[i]`, so
`analysisResults = validImages.map g`).  A page that failed to load becomes an
`errorPage`; an analysed page is looked up by page number in `validImages`
(`findIndex`) and paired with the analysis entry at that index; `resultIndex
=== -1` is a `continue`.  With zero valid images the batch aborts with a
single batch-level error (line 484-489); otherwise `allPagesData` is sorted by
ascending page number (line 655). -/
def runAggregation {Item : Type} (calcFn : List JsonVal → Except String (CatData Item))
    (tag : Item → Nat → Item) (g : SelPage → AnalysisRes) (pages : List SelPage) :
    Except String (List (PageData Item)) :=
  let validImages := pages.filter hasValidData
  if validImages.length = 0 then Except.error "No valid images to process"
  else
    let analysisResults := validImages.map g
    Except.ok
      ((pages.filterMap (fun p =>
          if p.conversionError.isSome || !p.success then some (errorPage p)
          else
            match validImages.findIdx? (fun img => img.pageNumber == p.pageNumber) with
            | none => none
            | some idx =>
              match analysisResults.get? idx with
              | none => none
              | some ar => some (processedPage calcFn tag p ar))).mergeSort
        (fun a b => a.pageNumber ≤ b.pageNumber))

/-- The outcome of one page considered on its own (used to state that a
page's aggregate entry depends only on that page). -/
def pageOutcome {Item : Type} (calcFn : List JsonVal → Except String (CatData Item))
    (tag : Item → Nat → Item) (g : SelPage → AnalysisRes) (p : SelPage) : PageData Item :=
  if p.conversionError.isSome || !p.success then errorPage p
  else processedPage calcFn tag p (g p)

/-- One `progress` event of the analysis phase (pdfController.js lines
511-520, fed by the onProgress callback of geminiService.js lines 304-306 and
326-328). -/
structure ProgressEvent where
  completed : Nat
  total : Nat
  pageNumber : Nat
deriving DecidableEq

/-- The completion loop of `analyzeImagesUltraFast` (geminiService.js lines
284-330): pages complete in the order `order` (indices into `pageNumbers`);
each terminal handling (success or failure) increments `completedCount` by one
and fires `onProgress` exactly once with the new count.  `cnt` is the current
`completedCount`. -/
def completionEventsAux (pageNumbers : List Nat) (total : Nat) :
    Nat → List Nat → List ProgressEvent
  | _, [] => []
  | cnt, idx :: rest =>
    { completed := cnt + 1, total := total, pageNumber := pageNumbers.getD idx 0 } ::
      completionEventsAux pageNumbers total (cnt + 1) rest

/-- All progress events of one analysis run, in emission order. -/
def completionEvents (pageNumbers : List Nat) (order : List Nat) : List ProgressEvent :=
  completionEventsAux pageNumbers pageNumbers.length 0 order

/-- An event on the SSE stream of `processSelectedImages`: a progress event or
the terminal complete event. -/
inductive SseEvent where
  | progress (e : ProgressEvent)
  | complete
deriving DecidableEq

/-- The stream of analysis events: the `complete` event is written only after
`await Promise.all` of every page (pdfController.js lines 503-694). -/
def analysisTrace (pageNumbers : List Nat) (order : List Nat) : List SseEvent :=
  (completionEvents pageNumbers order).map SseEvent.progress ++ [SseEvent.complete]

/-- The number of in-flight jobs recorded across all user queues. -/
def sumCounts (l : List (String × Int)) : Int :=
  (l.map (fun p => p.2)).sum

/-- The linking invariant of the concurrency governor: all per-user counts are
non-negative, the global count is their sum, and the queue map has unique
keys (a JS `Map` property). -/
def GovInv (s : UserManagerState) : Prop :=
  (∀ p ∈ s.queues, 0 ≤ p.2) ∧
  s.globalActiveCount = sumCounts s.queues ∧
  (s.queues.map (fun p => p.1)).Nodup

theorem mapGet_map_incr (l : List (String × Int)) (u : String) :
    mapGet (l.map (fun p => if p.1 == u then (p.1, p.2 + 1) else p)) u =
      (mapGet l u).map (fun c => c + 1) := by
  induction l with
  | nil => rfl
  | cons hd tl ih =>
    by_cases hk : hd.1 == u
    · simp [mapGet, List.find?, hk] at ih ⊢
    · simp [mapGet, List.find?, hk] at ih ⊢
      exact ih

theorem mapGet_map_decr (l : List (String × Int)) (u : String) :
    mapGet (l.map (fun p => if p.1 == u then (p.1, p.2 - 1) else p)) u =
      (mapGet l u).map (fun c => c - 1) := by
  induction l with
  | nil => rfl
  | cons hd tl ih =>
    by_cases hk : hd.1 == u
    · simp [mapGet, List.find?, hk] at ih ⊢
    · simp [mapGet, List.find?, hk] at ih ⊢
      exact ih

theorem mapGet_bump (l : List (String × Int)) (u : String) :
    mapGet ((if (l.find? (fun p => p.1 == u)).isSome then l else l ++ [(u, 0)]).map
      (fun p => if p.1 == u then (p.1, p.2 + 1) else p)) u =
      some ((mapGet l u).getD 0 + 1) := by
  by_cases hp : (l.find? (fun p => p.1 == u)).isSome
  · rw [if_pos hp, mapGet_map_incr]
    obtain ⟨q, hq⟩ := Option.isSome_iff_exists.mp hp
    simp [mapGet, hq]
  · rw [if_neg hp, mapGet_map_incr]
    have hnone : l.find? (fun p => p.1 == u) = none := by
      cases hfind : l.find? (fun p => p.1 == u) with
      | none => rfl
      | some q => rw [hfind] at hp; simp at hp
    have happ : mapGet (l ++ [(u, 0)]) u = some 0 := by
      simp [mapGet, List.find?_append, hnone, List.find?]
    rw [happ]
    simp [mapGet, hnone]

/-- C1: cross-tenant isolation of jobs and artifacts — an artifact whose
recorded owner is tenant `t1` is never authorized for a different tenant
`t2` (`validateImageAccess` answers false), and a cancel request by `t2` for
a session owned by `t1` fails with the authorization error and leaves the
session table (in particular the owner's cancellation flag) unchanged. -/
theorem cross_tenant_isolation (t1 t2 filename : String)
    (own : List (String × String)) (sessions : List (String × ProcSession))
    (sid : String) (s : ProcSession)
    (hne : t1 ≠ t2) (hsid : sid ≠ "")
    (hown : mapGet own filename = some t1)
    (hsess : mapGet sessions sid = some s)
    (howner : s.userId = t1) :
    validateImageAccess own t2 filename = false ∧
    cancelProcessing sessions t2 (some sid) = (CancelResult.accessDenied, sessions) := by
  constructor
  · have hsome : (some t1 : Option String) ≠ some t2 := by simpa using hne
    simp only [validateImageAccess, hown]
    exact beq_eq_false_iff_ne.mpr hsome
  · have hneq : s.userId ≠ t2 := by rw [howner]; exact hne
    simp [cancelProcessing, hsid, hsess, hneq]

theorem cross_tenant_isolation_witness :
    validateImageAccess [("page_1.png", "tenantA")] "tenantB" "page_1.png" = false ∧
    cancelProcessing [("sess1", ⟨"tenantA", false⟩)] "tenantB" (some "sess1") =
      (CancelResult.accessDenied, [("sess1", ⟨"tenantA", false⟩)]) :=
  cross_tenant_isolation "tenantA" "tenantB" "page_1.png"
    [("page_1.png", "tenantA")] [("sess1", ⟨"tenantA", false⟩)] "sess1"
    ⟨"tenantA", false⟩ (by decide) (by decide) (by rfl) (by rfl) (by rfl)

/-- C2 counterexample: with tenant "t" already at the per-tenant cap (active
count 3, so `canUserStartProcessing` is false), a `processSelectedImages`
submission that passes the page-selection and session checks is nevertheless
admitted — `startUserProcessing` runs and both counters are incremented past
the cap instead of the submission being rejected with a capacity error. -/
theorem concurrency_admission_counterexample :
    canUserStartProcessing ⟨[("t", 3)], 3⟩ "t" = false ∧
    processSelectedImagesAdmission ⟨[("t", 3)], 3⟩ "t" true true =
      (SelectedSubmitResult.started, ⟨[("t", 4)], 4⟩) := by
  constructor
  · rfl
  · rfl

/-- C2 (amended): on the `processPDF` submission path a (valid-PDF)
submission is admitted — running `startUserProcessing`, which increments the
tenant's active count and the global active count by one — iff
`canUserStartProcessing` holds, i.e. iff the tenant's active count is below 3
and the global count is below 15; otherwise it is rejected with a capacity
error and the state is unchanged.  The `processSelectedImages` path, however,
calls `startUserProcessing` with no capacity check at all: whenever the
page-selection and session checks pass it increments both counters, even at or
above the caps. -/
theorem concurrency_admission_amended (s : UserManagerState) (u : String) :
    (processPDFAdmission s u true =
      if canUserStartProcessing s u = true then
        (SubmitResult.admitted, startUserProcessing s u)
      else (SubmitResult.capacityError, s)) ∧
    (canUserStartProcessing s u =
      (decide ((mapGet s.queues u).getD 0 < 3) && decide (s.globalActiveCount < 15))) ∧
    ((startUserProcessing s u).globalActiveCount = s.globalActiveCount + 1) ∧
    ((mapGet (startUserProcessing s u).queues u).getD 0 = (mapGet s.queues u).getD 0 + 1) ∧
    (processSelectedImagesAdmission s u true true =
      (SelectedSubmitResult.started, startUserProcessing s u)) := by
  refine ⟨?_, rfl, rfl, ?_, rfl⟩
  · cases hc : canUserStartProcessing s u <;> simp [processPDFAdmission, hc]
  · show (mapGet (startUserProcessing s u).queues u).getD 0 = _
    simp only [startUserProcessing, mapGet_bump]
    rfl

theorem pruneWindow_headD_lt (now w : Int) (l : List Int)
    (h : pruneWindow now w l ≠ []) :
    now - (pruneWindow now w l).headD 0 < w := by
  cases hpw : pruneWindow now w l with
  | nil => exact absurd hpw h
  | cons a t =>
    have ha : a ∈ pruneWindow now w l := by
      rw [hpw]; exact List.mem_cons_self a t
    have hprop : now - a < w := by
      have := List.of_mem_filter ha
      simpa using this
    simp [hpw, hprop]

/-- C4: rate-limited admission — whenever `waitIfNeeded` completes (does not
suspend) for a key at time `now`, the pruned burst-window count is strictly
below the burst limit (10 per 10 s) and the pruned 60-second-window count is
strictly below 60 per minute, and the completing call appends `now` to both
windows after pruning entries older than the respective window. -/
theorem rate_limited_admission (kd kd2 : KeyData) (now : Int)
    (h : waitIfNeededStep kd now = some kd2) :
    (pruneWindow now burstWindow kd.burstRequests).length < burstLimit ∧
    (pruneWindow now 60000 kd.requests).length < maxRequestsPerMinute ∧
    kd2.requests = pruneWindow now 60000 kd.requests ++ [now] ∧
    kd2.burstRequests = pruneWindow now burstWindow kd.burstRequests ++ [now] := by
  simp only [waitIfNeededStep] at h
  by_cases h1 : burstLimit ≤ (pruneWindow now burstWindow kd.burstRequests).length ∧
      0 < burstWindow - (now - (pruneWindow now burstWindow kd.burstRequests).headD 0) + 100
  · rw [if_pos h1] at h
    exact Option.noConfusion h
  · rw [if_neg h1] at h
    by_cases h2 : maxRequestsPerMinute ≤ (pruneWindow now 60000 kd.requests).length ∧
        0 < 60000 - (now - (pruneWindow now 60000 kd.requests).headD 0) + 200
    · rw [if_pos h2] at h
      exact Option.noConfusion h
    · rw [if_neg h2] at h
      injection h with h3
      subst h3
      have hb : (pruneWindow now burstWindow kd.burstRequests).length < burstLimit := by
        by_contra hlen
        apply h1
        have hge : burstLimit ≤ (pruneWindow now burstWindow kd.burstRequests).length :=
          Nat.le_of_not_lt hlen
        refine ⟨hge, ?_⟩
        have hpos : 0 < (pruneWindow now burstWindow kd.burstRequests).length :=
          lt_of_lt_of_le (by norm_num [burstLimit]) hge
        have hne : pruneWindow now burstWindow kd.burstRequests ≠ [] :=
          List.length_pos.mp hpos
        have hlt := pruneWindow_headD_lt now burstWindow kd.burstRequests hne
        omega
      have hr : (pruneWindow now 60000 kd.requests).length < maxRequestsPerMinute := by
        by_contra hlen
        apply h2
        have hge : maxRequestsPerMinute ≤ (pruneWindow now 60000 kd.requests).length :=
          Nat.le_of_not_lt hlen
        refine ⟨hge, ?_⟩
        have hpos : 0 < (pruneWindow now 60000 kd.requests).length :=
          lt_of_lt_of_le (by norm_num [maxRequestsPerMinute]) hge
        have hne : pruneWindow now 60000 kd.requests ≠ [] :=
          List.length_pos.mp hpos
        have hlt := pruneWindow_headD_lt now 60000 kd.requests hne
        omega
      exact ⟨hb, hr, rfl, rfl⟩

theorem rate_limited_admission_witness :
    (pruneWindow 5 burstWindow ([] : List Int)).length < burstLimit ∧
    (pruneWindow 5 60000 ([] : List Int)).length < maxRequestsPerMinute ∧
    (KeyData.mk [5] [5]).requests = pruneWindow 5 60000 [] ++ [5] ∧
    (KeyData.mk [5] [5]).burstRequests = pruneWindow 5 burstWindow [] ++ [5] :=
  rate_limited_admission ⟨[], []⟩ ⟨[5], [5]⟩ 5 (by decide)

theorem map_incr_noop (l : List (String × Int)) (u : String)
    (h : ∀ p ∈ l, (p.1 == u) = false) :
    l.map (fun p => if p.1 == u then (p.1, p.2 + 1) else p) = l := by
  induction l with
  | nil => rfl
  | cons hd tl ih =>
    have hhd := h hd (List.mem_cons_self hd tl)
    simp only [List.map_cons, hhd, Bool.false_eq_true, if_false]
    rw [ih (fun p hp => h p (List.mem_cons_of_mem hd hp))]

theorem map_decr_noop (l : List (String × Int)) (u : String)
    (h : ∀ p ∈ l, (p.1 == u) = false) :
    l.map (fun p => if p.1 == u then (p.1, p.2 - 1) else p) = l := by
  induction l with
  | nil => rfl
  | cons hd tl ih =>
    have hhd := h hd (List.mem_cons_self hd tl)
    simp only [List.map_cons, hhd, Bool.false_eq_true, if_false]
    rw [ih (fun p hp => h p (List.mem_cons_of_mem hd hp))]

theorem keys_not_mem_of_nodup (l : List (String × Int)) (hd : String × Int) (u : String)
    (hnd : ((hd :: l).map (fun p => p.1)).Nodup) (hu : hd.1 = u) :
    ∀ p ∈ l, (p.1 == u) = false := by
  intro p hp
  have hnotmem : hd.1 ∉ l.map (fun p => p.1) := by
    simp only [List.map_cons, List.nodup_cons] at hnd
    exact hnd.1
  have : p.1 ≠ u := by
    intro hcon
    apply hnotmem
    rw [hu, ← hcon]
    exact List.mem_map_of_mem _ hp
  simpa using this

theorem sumCounts_incr (l : List (String × Int)) (u : String)
    (hfind : (l.find? (fun p => p.1 == u)).isSome)
    (hnd : (l.map (fun p => p.1)).Nodup) :
    sumCounts (l.map (fun p => if p.1 == u then (p.1, p.2 + 1) else p)) =
      sumCounts l + 1 := by
  induction l with
  | nil => simp [List.find?] at hfind
  | cons hd tl ih =>
    by_cases hk : (hd.1 == u) = true
    · have hu : hd.1 = u := by simpa using hk
      have htl := keys_not_mem_of_nodup tl hd u hnd hu
      simp only [List.map_cons, hk, if_true]
      rw [map_incr_noop tl u htl]
      simp [sumCounts]
      ring
    · have hfind2 : (tl.find? (fun p => p.1 == u)).isSome := by
        rw [List.find?_cons_of_neg] at hfind
        · exact hfind
        · simpa using hk
      have hnd2 : (tl.map (fun p => p.1)).Nodup := by
        simp only [List.map_cons, List.nodup_cons] at hnd
        exact hnd.2
      simp only [List.map_cons, hk, Bool.false_eq_true, if_false]
      have := ih hfind2 hnd2
      simp [sumCounts] at this ⊢
      omega

theorem sumCounts_decr (l : List (String × Int)) (u : String)
    (hfind : (l.find? (fun p => p.1 == u)).isSome)
    (hnd : (l.map (fun p => p.1)).Nodup) :
    sumCounts (l.map (fun p => if p.1 == u then (p.1, p.2 - 1) else p)) =
      sumCounts l - 1 := by
  induction l with
  | nil => simp [List.find?] at hfind
  | cons hd tl ih =>
    by_cases hk : (hd.1 == u) = true
    · have hu : hd.1 = u := by simpa using hk
      have htl := keys_not_mem_of_nodup tl hd u hnd hu
      simp only [List.map_cons, hk, if_true]
      rw [map_decr_noop tl u htl]
      simp [sumCounts]
      ring
    · have hfind2 : (tl.find? (fun p => p.1 == u)).isSome := by
        rw [List.find?_cons_of_neg] at hfind
        · exact hfind
        · simpa using hk
      have hnd2 : (tl.map (fun p => p.1)).Nodup := by
        simp only [List.map_cons, List.nodup_cons] at hnd
        exact hnd.2
      simp only [List.map_cons, hk, Bool.false_eq_true, if_false]
      have := ih hfind2 hnd2
      simp [sumCounts] at this ⊢
      omega

theorem keys_map_incr (l : List (String × Int)) (u : String) :
    (l.map (fun p => if p.1 == u then (p.1, p.2 + 1) else p)).map (fun p => p.1) =
      l.map (fun p => p.1) := by
  induction l with
  | nil => rfl
  | cons hd tl ih =>
    simp only [List.map_cons]
    rw [ih]
    by_cases hk : (hd.1 == u) = true <;> simp [hk]

theorem keys_map_decr (l : List (String × Int)) (u : String) :
    (l.map (fun p => if p.1 == u then (p.1, p.2 - 1) else p)).map (fun p => p.1) =
      l.map (fun p => p.1) := by
  induction l with
  | nil => rfl
  | cons hd tl ih =>
    simp only [List.map_cons]
    rw [ih]
    by_cases hk : (hd.1 == u) = true <;> simp [hk]

theorem govInv_start (s : UserManagerState) (u : String) (h : GovInv s) :
    GovInv (startUserProcessing s u) := by
  obtain ⟨hnn, hsum, hnd⟩ := h
  have hq : (startUserProcessing s u).queues =
      (if (s.queues.find? (fun p => p.1 == u)).isSome then s.queues
        else s.queues ++ [(u, 0)]).map (fun p => if p.1 == u then (p.1, p.2 + 1) else p) := rfl
  have hg : (startUserProcessing s u).globalActiveCount = s.globalActiveCount + 1 := rfl
  by_cases hp : (s.queues.find? (fun p => p.1 == u)).isSome
  · rw [if_pos hp] at hq
    refine ⟨?_, ?_, ?_⟩
    · intro p hpm
      rw [hq] at hpm
      obtain ⟨a, ha, rfl⟩ := List.mem_map.mp hpm
      by_cases hk : (a.1 == u) = true
      · simp only [hk, if_true]
        have := hnn a ha
        omega
      · simp only [hk, Bool.false_eq_true, if_false]
        exact hnn a ha
    · rw [hg, hq, sumCounts_incr s.queues u hp hnd, hsum]
    · rw [hq, keys_map_incr]
      exact hnd
  · rw [if_neg hp] at hq
    have hfn : s.queues.find? (fun p => p.1 == u) = none :=
      Option.not_isSome_iff_eq_none.mp hp
    have hkeys : ∀ p ∈ s.queues, (p.1 == u) = false := by
      intro p hpm
      have := List.find?_eq_none.mp hfn p hpm
      simpa using this
    have happ : (startUserProcessing s u).queues = s.queues ++ [(u, 1)] := by
      rw [hq, List.map_append, map_incr_noop s.queues u hkeys]
      simp
    have hnotmem : u ∉ s.queues.map (fun p => p.1) := by
      intro hmem
      obtain ⟨p, hpm, hpe⟩ := List.mem_map.mp hmem
      have := hkeys p hpm
      rw [hpe] at this
      simp at this
    refine ⟨?_, ?_, ?_⟩
    · intro p hpm
      rw [happ] at hpm
      rcases List.mem_append.mp hpm with hin | hin
      · exact hnn p hin
      · simp at hin
        rw [hin]
        omega
    · rw [hg, happ, hsum]
      simp [sumCounts]
    · rw [happ, List.map_append]
      simp only [List.map_cons, List.map_nil]
      rw [List.nodup_append]
      exact ⟨hnd, List.nodup_singleton u, by simpa using hnotmem⟩

theorem govInv_end (s : UserManagerState) (u : String) (h : GovInv s) :
    GovInv (endUserProcessing s u) := by
  obtain ⟨hnn, hsum, hnd⟩ := h
  cases hfind : mapGet s.queues u with
  | none =>
    have hid : endUserProcessing s u = s := by
      unfold endUserProcessing
      rw [hfind]
    rw [hid]
    exact ⟨hnn, hsum, hnd⟩
  | some c =>
    obtain ⟨q, hqfind, hqc⟩ : ∃ q, s.queues.find? (fun p => p.1 == u) = some q ∧ q.2 = c := by
      unfold mapGet at hfind
      cases hf : s.queues.find? (fun p => p.1 == u) with
      | none => rw [hf] at hfind; simp at hfind
      | some q => rw [hf] at hfind; simp at hfind; exact ⟨q, rfl, hfind⟩
    by_cases hc : 0 < c
    · have hstep : endUserProcessing s u =
          { queues := s.queues.map (fun p => if p.1 == u then (p.1, p.2 - 1) else p),
            globalActiveCount := s.globalActiveCount - 1 } := by
        unfold endUserProcessing
        rw [hfind]
        exact if_pos hc
      rw [hstep]
      have hqmem : q ∈ s.queues := List.mem_of_find?_eq_some hqfind
      have hqu : q.1 = u := by
        have := List.find?_some hqfind
        simpa using this
      refine ⟨?_, ?_, ?_⟩
      · intro p hpm
        obtain ⟨a, ha, rfl⟩ := List.mem_map.mp hpm
        by_cases hk : (a.1 == u) = true
        · have hau : a.1 = u := by simpa using hk
          have haq : a = q :=
            List.inj_on_of_nodup_map hnd ha hqmem (by rw [hau, hqu])
          simp only [hk, if_true]
          rw [haq, hqc]
          omega
        · simp only [hk, Bool.false_eq_true, if_false]
          exact hnn a ha
      · show s.globalActiveCount - 1 = _
        rw [sumCounts_decr s.queues u (by rw [hqfind]; rfl) hnd, hsum]
      · show ((s.queues.map _).map _).Nodup
        rw [keys_map_decr]
        exact hnd
    · have hid : endUserProcessing s u = s := by
        unfold endUserProcessing
        rw [hfind]
        exact if_neg hc
      rw [hid]
      exact ⟨hnn, hsum, hnd⟩

theorem govInv_init : GovInv ⟨[], 0⟩ := by
  refine ⟨?_, ?_, ?_⟩ <;> simp [sumCounts]

theorem govInv_run (ops : List GovOp) (s : UserManagerState) (h : GovInv s) :
    GovInv (runGovOps s ops) := by
  induction ops generalizing s with
  | nil => exact h
  | cons op rest ih =>
    cases op with
    | start u => exact ih _ (govInv_start s u h)
    | release u => exact ih _ (govInv_end s u h)

theorem endUserProcessing_noop (s : UserManagerState) (u : String)
    (h : (mapGet s.queues u).getD 0 = 0) : endUserProcessing s u = s := by
  cases hfind : mapGet s.queues u with
  | none =>
    unfold endUserProcessing
    rw [hfind]
  | some c =>
    have hc : c = 0 := by rw [hfind] at h; simpa using h
    unfold endUserProcessing
    rw [hfind]
    exact if_neg (by omega)

/-- C3: release safety — in every state reachable by any sequence of
`startUserProcessing`/`endUserProcessing` calls (including repeated releases
for the same reservation), every tenant's active count and the global active
count are non-negative, and a release performed while the tenant's active
count is zero (or the tenant has no queue) leaves the whole state, in
particular both counters, unchanged. -/
theorem release_safety (ops : List GovOp) (u : String) (s : UserManagerState)
    (hs : s = runGovOps ⟨[], 0⟩ ops) :
    (∀ p ∈ s.queues, 0 ≤ p.2) ∧ 0 ≤ s.globalActiveCount ∧
    ((mapGet s.queues u).getD 0 = 0 → endUserProcessing s u = s) := by
  have hinv : GovInv s := hs ▸ govInv_run ops ⟨[], 0⟩ govInv_init
  obtain ⟨hnn, hsum, hnd⟩ := hinv
  refine ⟨hnn, ?_, fun h0 => endUserProcessing_noop s u h0⟩
  rw [hsum]
  unfold sumCounts
  apply List.sum_nonneg
  intro x hx
  obtain ⟨p, hp, rfl⟩ := List.mem_map.mp hx
  exact hnn p hp

theorem release_safety_witness :
    0 ≤ (runGovOps ⟨[], 0⟩
        [GovOp.start "a", GovOp.release "a", GovOp.release "a"]).globalActiveCount ∧
    endUserProcessing (runGovOps ⟨[], 0⟩
        [GovOp.start "a", GovOp.release "a", GovOp.release "a"]) "a" =
      runGovOps ⟨[], 0⟩ [GovOp.start "a", GovOp.release "a", GovOp.release "a"] :=
  ⟨(release_safety [GovOp.start "a", GovOp.release "a", GovOp.release "a"] "a" _ rfl).2.1,
   (release_safety [GovOp.start "a", GovOp.release "a", GovOp.release "a"] "a" _
      rfl).2.2 (by decide)⟩

theorem bestKeyLoop_spec (usage : Nat → KeyData) (now : Int) :
    ∀ (xs : List Nat) (b m : Nat),
      xs.Pairwise (· < ·) → (∀ j ∈ xs, b < j) →
      ∃ b2 m2, bestKeyLoop usage now xs (b, some m) = (b2, some m2) ∧
        ((b2 = b ∧ m2 = m) ∨ (b2 ∈ xs ∧ m2 = keyLoad usage now b2 ∧ m2 < m)) ∧
        (∀ j ∈ xs, m2 ≤ keyLoad usage now j) ∧ m2 ≤ m ∧
        (∀ j ∈ xs, keyLoad usage now j = m2 → b2 ≤ j) := by
  intro xs
  induction xs with
  | nil =>
    intro b m _ _
    exact ⟨b, m, rfl, Or.inl ⟨rfl, rfl⟩, by simp, le_refl m, by simp⟩
  | cons i rest ih =>
    intro b m hpw hb
    have hpwc := List.pairwise_cons.mp hpw
    have hir : ∀ j ∈ rest, i < j := hpwc.1
    have hpwr : rest.Pairwise (· < ·) := hpwc.2
    by_cases hlt : keyLoad usage now i < m
    · have hstep : bestKeyLoop usage now (i :: rest) (b, some m) =
          bestKeyLoop usage now rest (i, some (keyLoad usage now i)) := by
        simp [bestKeyLoop, bestKeyStep, hlt]
      obtain ⟨b2, m2, heq, halt, hmin, hle, hties⟩ :=
        ih i (keyLoad usage now i) hpwr hir
      refine ⟨b2, m2, by rw [hstep]; exact heq, ?_, ?_, ?_, ?_⟩
      · rcases halt with ⟨rfl, rfl⟩ | ⟨hmem, hload, hlt2⟩
        · exact Or.inr ⟨List.mem_cons_self b2 rest, rfl, hlt⟩
        · exact Or.inr ⟨List.mem_cons_of_mem i hmem, hload, lt_trans hlt2 hlt⟩
      · intro j hj
        rcases List.mem_cons.mp hj with rfl | hj2
        · exact hle
        · exact hmin j hj2
      · exact le_trans hle (le_of_lt hlt)
      · intro j hj hload
        rcases List.mem_cons.mp hj with rfl | hj2
        · rcases halt with ⟨rfl, rfl⟩ | ⟨hmem, hload2, hlt2⟩
          · exact le_refl b2
          · omega
        · exact hties j hj2 hload
    · have hstep : bestKeyLoop usage now (i :: rest) (b, some m) =
          bestKeyLoop usage now rest (b, some m) := by
        simp [bestKeyLoop, bestKeyStep, hlt]
      have hbr : ∀ j ∈ rest, b < j := fun j hj => hb j (List.mem_cons_of_mem i hj)
      obtain ⟨b2, m2, heq, halt, hmin, hle, hties⟩ := ih b m hpwr hbr
      have hmle : m ≤ keyLoad usage now i := Nat.le_of_not_lt hlt
      refine ⟨b2, m2, by rw [hstep]; exact heq, ?_, ?_, hle, ?_⟩
      · rcases halt with ⟨h1, h2⟩ | ⟨hmem, hload, hlt2⟩
        · exact Or.inl ⟨h1, h2⟩
        · exact Or.inr ⟨List.mem_cons_of_mem i hmem, hload, hlt2⟩
      · intro j hj
        rcases List.mem_cons.mp hj with rfl | hj2
        · exact le_trans hle hmle
        · exact hmin j hj2
      · intro j hj hload
        rcases List.mem_cons.mp hj with rfl | hj2
        · rcases halt with ⟨rfl, rfl⟩ | ⟨hmem, hload2, hlt2⟩
          · exact le_of_lt (hb j (List.mem_cons_self j rest))
          · omega
        · exact hties j hj2 hload

/-- C5: least-loaded credential selection — for every usage ledger state and
time `now`, `getBestAvailableKey` returns the index of a configured
credential (below `numKeys`) whose load `windowCount + 2 × burstCount`
(both windows pruned at `now`) is minimal among all configured credentials,
and among the credentials attaining the minimum it returns the lowest
index. -/
theorem least_loaded_selection (numKeys : Nat) (usage : Nat → KeyData) (now : Int)
    (hpos : 0 < numKeys) :
    getBestAvailableKey numKeys usage now < numKeys ∧
    (∀ j, j < numKeys →
      keyLoad usage now (getBestAvailableKey numKeys usage now) ≤ keyLoad usage now j) ∧
    (∀ j, j < numKeys →
      keyLoad usage now j = keyLoad usage now (getBestAvailableKey numKeys usage now) →
      getBestAvailableKey numKeys usage now ≤ j) := by
  obtain ⟨n, rfl⟩ : ∃ n, numKeys = n + 1 := ⟨numKeys - 1, by omega⟩
  have hrange : List.range (n + 1) = 0 :: List.map Nat.succ (List.range n) :=
    List.range_succ_eq_map n
  have hfirst : bestKeyLoop usage now (List.range (n + 1)) (0, none) =
      bestKeyLoop usage now (List.map Nat.succ (List.range n))
        (0, some (keyLoad usage now 0)) := by
    rw [hrange]
    simp [bestKeyLoop, bestKeyStep]
  have hpw : (List.map Nat.succ (List.range n)).Pairwise (· < ·) := by
    rw [List.pairwise_map]
    exact (List.pairwise_lt_range n).imp (fun h => Nat.succ_lt_succ h)
  have hb0 : ∀ j ∈ List.map Nat.succ (List.range n), 0 < j := by
    intro j hj
    obtain ⟨k, _, rfl⟩ := List.mem_map.mp hj
    exact Nat.succ_pos k
  obtain ⟨b2, m2, heq, halt, hmin, hle, hties⟩ :=
    bestKeyLoop_spec usage now (List.map Nat.succ (List.range n)) 0
      (keyLoad usage now 0) hpw hb0
  have hbest : getBestAvailableKey (n + 1) usage now = b2 := by
    unfold getBestAvailableKey
    rw [hfirst, heq]
  have hm2load : m2 = keyLoad usage now b2 := by
    rcases halt with ⟨rfl, rfl⟩ | ⟨_, h, _⟩
    · rfl
    · exact h
  have hmemof : ∀ j : Nat, 0 < j → j < n + 1 → j ∈ List.map Nat.succ (List.range n) := by
    intro j h1 h2
    exact List.mem_map.mpr ⟨j - 1, List.mem_range.mpr (by omega), by omega⟩
  refine ⟨?_, ?_, ?_⟩
  · rw [hbest]
    rcases halt with ⟨rfl, _⟩ | ⟨hmem, _, _⟩
    · omega
    · obtain ⟨k, hk, rfl⟩ := List.mem_map.mp hmem
      have := List.mem_range.mp hk
      omega
  · intro j hj
    rw [hbest, ← hm2load]
    by_cases hj0 : j = 0
    · subst hj0
      rcases halt with ⟨_, rfl⟩ | ⟨_, _, hlt⟩
      · exact le_refl _
      · exact le_of_lt hlt
    · exact hmin j (hmemof j (Nat.pos_of_ne_zero hj0) hj)
  · intro j hj hload
    rw [hbest]
    rw [hbest, ← hm2load] at hload
    by_cases hj0 : j = 0
    · subst hj0
      rcases halt with ⟨rfl, rfl⟩ | ⟨hmem, hl, hlt⟩
      · exact le_refl 0
      · omega
    · exact hties j (hmemof j (Nat.pos_of_ne_zero hj0) hj) hload

theorem least_loaded_selection_witness :
    getBestAvailableKey 2 (fun i => if i = 0 then ⟨[0], [0]⟩ else ⟨[], []⟩) 0 < 2 ∧
    keyLoad (fun i => if i = 0 then ⟨[0], [0]⟩ else ⟨[], []⟩) 0
        (getBestAvailableKey 2 (fun i => if i = 0 then ⟨[0], [0]⟩ else ⟨[], []⟩) 0) ≤
      keyLoad (fun i => if i = 0 then ⟨[0], [0]⟩ else ⟨[], []⟩) 0 0 :=
  ⟨(least_loaded_selection 2 (fun i => if i = 0 then ⟨[0], [0]⟩ else ⟨[], []⟩) 0
      (by decide)).1,
   (least_loaded_selection 2 (fun i => if i = 0 then ⟨[0], [0]⟩ else ⟨[], []⟩) 0
      (by decide)).2.1 0 (by decide)⟩

/-- C6: retry semantics — in the attempt loop of `retryUltraFast`, where the
key for attempt `t` is chosen afresh by the least-loaded selection
`getBestAvailableKey` over the limiter state at that moment (`usageAt t`,
`nowAt t`): a successful attempt returns its result immediately; an error
classified non-retryable is re-raised immediately with no further attempt; an
error on the last available attempt is re-raised (so the last error is raised
once attempts are exhausted); and the loop re-invokes `fn` — moving to
attempt `t + 1` with a freshly selected credential — exactly when the error
is retryable and attempts remain. -/
theorem retry_semantics {α : Type} (fn : Nat → Nat → Except String α) (numKeys : Nat)
    (usageAt : Nat → Nat → KeyData) (nowAt : Nat → Int) (maxRetries : Nat) :
    (∀ t fuel a,
      fn t (getBestAvailableKey numKeys (usageAt t) (nowAt t)) = Except.ok a →
      retryLoop fn (fun r => getBestAvailableKey numKeys (usageAt r) (nowAt r))
        maxRetries t (fuel + 1) = Except.ok a) ∧
    (∀ t fuel e,
      fn t (getBestAvailableKey numKeys (usageAt t) (nowAt t)) = Except.error e →
      isRetryableError e = false →
      retryLoop fn (fun r => getBestAvailableKey numKeys (usageAt r) (nowAt r))
        maxRetries t (fuel + 1) = Except.error e) ∧
    (∀ t fuel e,
      fn t (getBestAvailableKey numKeys (usageAt t) (nowAt t)) = Except.error e →
      ¬(t + 1 < maxRetries) →
      retryLoop fn (fun r => getBestAvailableKey numKeys (usageAt r) (nowAt r))
        maxRetries t (fuel + 1) = Except.error e) ∧
    (∀ t fuel e,
      fn t (getBestAvailableKey numKeys (usageAt t) (nowAt t)) = Except.error e →
      isRetryableError e = true → t + 1 < maxRetries →
      retryLoop fn (fun r => getBestAvailableKey numKeys (usageAt r) (nowAt r))
        maxRetries t (fuel + 1) =
        retryLoop fn (fun r => getBestAvailableKey numKeys (usageAt r) (nowAt r))
          maxRetries (t + 1) fuel) := by
  refine ⟨?_, ?_, ?_, ?_⟩
  · intro t fuel a hok
    simp [retryLoop, hok]
  · intro t fuel e herr hfatal
    have hcond : ¬(isRetryableError e = true ∧ t + 1 < maxRetries) := by
      intro hcontra
      rw [hfatal] at hcontra
      exact absurd hcontra.1 (by simp)
    simp [retryLoop, herr, hcond]
  · intro t fuel e herr hlast
    have hcond : ¬(isRetryableError e = true ∧ t + 1 < maxRetries) := by
      intro hcontra
      exact hlast hcontra.2
    simp [retryLoop, herr, hcond]
  · intro t fuel e herr hretry hremain
    simp [retryLoop, herr, hretry, hremain]

theorem retry_semantics_witness :
    retryLoop (fun t _ => if t = 0 then Except.error "got 429" else Except.ok 7)
      (fun r => getBestAvailableKey 1 ((fun _ _ => (⟨[], []⟩ : KeyData)) r)
        ((fun _ => (0 : Int)) r)) 2 0 2 = Except.ok 7 ∧
    retryLoop (fun _ _ => (Except.error "bad input" : Except String Nat))
      (fun r => getBestAvailableKey 1 ((fun _ _ => (⟨[], []⟩ : KeyData)) r)
        ((fun _ => (0 : Int)) r)) 2 0 2 = Except.error "bad input" := by
  constructor
  · have h1 := (retry_semantics (fun t _ => if t = 0 then Except.error "got 429"
        else Except.ok (7 : Nat)) 1 (fun _ _ => ⟨[], []⟩) (fun _ => 0) 2).2.2.2
      0 1 "got 429" (by rfl) (by rfl) (by decide)
    have h2 := (retry_semantics (fun t _ => if t = 0 then Except.error "got 429"
        else Except.ok (7 : Nat)) 1 (fun _ _ => ⟨[], []⟩) (fun _ => 0) 2).1 1 0 7 (by rfl)
    exact h1.trans h2
  · exact (retry_semantics (fun _ _ => (Except.error "bad input" : Except String Nat)) 1
      (fun _ _ => ⟨[], []⟩) (fun _ => 0) 2).2.1 0 1 "bad input" (by rfl) (by rfl)

theorem completionEventsAux_completed (pageNumbers : List Nat) (total : Nat) :
    ∀ (order : List Nat) (cnt : Nat),
      (completionEventsAux pageNumbers total cnt order).map (fun e => e.completed) =
        List.range' (cnt + 1) order.length := by
  intro order
  induction order with
  | nil => intro cnt; rfl
  | cons idx rest ih =>
    intro cnt
    simp only [completionEventsAux, List.map_cons, List.length_cons, ih (cnt + 1)]
    rfl

theorem completionEventsAux_pages (pageNumbers : List Nat) (total : Nat) :
    ∀ (order : List Nat) (cnt : Nat),
      (completionEventsAux pageNumbers total cnt order).map (fun e => e.pageNumber) =
        order.map (fun i => pageNumbers.getD i 0) := by
  intro order
  induction order with
  | nil => intro cnt; rfl
  | cons idx rest ih =>
    intro cnt
    simp only [completionEventsAux, List.map_cons, ih (cnt + 1)]

theorem completionEventsAux_total (pageNumbers : List Nat) (total : Nat) :
    ∀ (order : List Nat) (cnt : Nat),
      ∀ ev ∈ completionEventsAux pageNumbers total cnt order, ev.total = total := by
  intro order
  induction order with
  | nil => intro cnt ev hev; simp [completionEventsAux] at hev
  | cons idx rest ih =>
    intro cnt ev hev
    rcases List.mem_cons.mp hev with rfl | hin
    · rfl
    · exact ih (cnt + 1) ev hin

/-- C8: progress monotonicity — for a job whose pages complete in an arbitrary
order `order` (a permutation of the page indices), the `completed` counts of
the emitted progress events are exactly 1, 2, …, total in emission order (each
page's terminal handling increments the counter by exactly one and fires the
callback once), hence monotonically non-decreasing; every event carries the
job's total; each order entry produces exactly one event (its page number);
the value `total` is reached exactly once; and the `complete` event is emitted
only after all progress events. -/
theorem progress_monotonicity (pageNumbers : List Nat) (order : List Nat)
    (hperm : order.Perm (List.range pageNumbers.length))
    (hne : pageNumbers ≠ []) :
    ((completionEvents pageNumbers order).map (fun e => e.completed) =
      List.range' 1 pageNumbers.length) ∧
    (((completionEvents pageNumbers order).map (fun e => e.completed)).Pairwise (· ≤ ·)) ∧
    ((completionEvents pageNumbers order).map (fun e => e.pageNumber) =
      order.map (fun i => pageNumbers.getD i 0)) ∧
    (∀ ev ∈ completionEvents pageNumbers order, ev.total = pageNumbers.length) ∧
    (List.count pageNumbers.length
      ((completionEvents pageNumbers order).map (fun e => e.completed)) = 1) ∧
    analysisTrace pageNumbers order =
      (completionEvents pageNumbers order).map SseEvent.progress ++ [SseEvent.complete] := by
  have hlen : order.length = pageNumbers.length := by
    rw [hperm.length_eq, List.length_range]
  have hcompleted : (completionEvents pageNumbers order).map (fun e => e.completed) =
      List.range' 1 pageNumbers.length := by
    rw [completionEvents, completionEventsAux_completed, hlen]
  refine ⟨hcompleted, ?_, ?_, ?_, ?_, rfl⟩
  · rw [hcompleted]
    exact (List.pairwise_lt_range' 1 pageNumbers.length).imp (fun h => le_of_lt h)
  · exact completionEventsAux_pages pageNumbers pageNumbers.length order 0
  · exact completionEventsAux_total pageNumbers pageNumbers.length order 0
  · rw [hcompleted]
    apply List.count_eq_one_of_mem (List.nodup_range' 1 pageNumbers.length)
    rw [List.mem_range'_1]
    have : 0 < pageNumbers.length := List.length_pos.mpr hne
    omega

theorem progress_monotonicity_witness :
    ((completionEvents [10, 20, 30] [2, 0, 1]).map (fun e => e.completed) =
      List.range' 1 3) ∧
    ((completionEvents [10, 20, 30] [2, 0, 1]).map (fun e => e.pageNumber) =
      [30, 10, 20]) ∧
    (List.count 3 ((completionEvents [10, 20, 30] [2, 0, 1]).map
      (fun e => e.completed)) = 1) ∧
    analysisTrace [10, 20, 30] [2, 0, 1] =
      (completionEvents [10, 20, 30] [2, 0, 1]).map SseEvent.progress ++
        [SseEvent.complete] := by
  have h := progress_monotonicity [10, 20, 30] [2, 0, 1] (by decide) (by decide)
  exact ⟨h.1, by decide, h.2.2.2.2.1, h.2.2.2.2.2⟩

theorem pageOutcome_pageNumber {Item : Type}
    (calcFn : List JsonVal → Except String (CatData Item)) (tag : Item → Nat → Item)
    (g : SelPage → AnalysisRes) (p : SelPage) :
    (pageOutcome calcFn tag g p).pageNumber = p.pageNumber := by
  unfold pageOutcome
  by_cases h : (p.conversionError.isSome || !p.success) = true
  · rw [if_pos h]
    rfl
  · rw [if_neg h]
    unfold processedPage
    cases hc : calcFn (g p).parsed <;> rfl

theorem hasValid_of_cond_false (p : SelPage) (hwf : WellFormedPage p)
    (h : (p.conversionError.isSome || !p.success) = false) : hasValidData p = true := by
  rw [Bool.or_eq_false_iff] at h
  obtain ⟨h1, h2⟩ := h
  have hs : p.success = true := by
    revert h2
    cases p.success <;> simp
  obtain ⟨hb, hi, hc⟩ := hwf.1 hs
  simp [hasValidData, hb, hi, hc, hs]

theorem cond_true_of_invalid (p : SelPage) (hwf : WellFormedPage p)
    (h : hasValidData p = false) :
    (p.conversionError.isSome || !p.success) = true := by
  by_cases hs : p.success = true
  · obtain ⟨hb, hi, hc⟩ := hwf.1 hs
    rw [hasValidData, hb, hi, hc, hs] at h
    simp at h
  · have hs2 : p.success = false := by
      revert hs
      cases p.success <;> simp
    simp [hs2]

theorem findIdx_shift {α : Type} (pred : α → Bool) :
    ∀ (l : List α) (i : Nat),
      l.findIdx? pred (i + 1) = (l.findIdx? pred i).map (fun k => k + 1) := by
  intro l
  induction l with
  | nil => intro i; rfl
  | cons hd tl ih =>
    intro i
    rw [List.findIdx?_cons, List.findIdx?_cons]
    by_cases h : pred hd = true
    · simp [h]
    · simp only [h, Bool.false_eq_true, if_false]
      exact ih (i + 1)

theorem findIdx_map_get {β : Type} (g : SelPage → β) :
    ∀ (l : List SelPage) (p : SelPage),
      (l.map (fun q => q.pageNumber)).Nodup → p ∈ l →
      ∃ idx, l.findIdx? (fun img => img.pageNumber == p.pageNumber) = some idx ∧
        (l.map g).get? idx = some (g p) := by
  intro l
  induction l with
  | nil => intro p _ hp; simp at hp
  | cons hd tl ih =>
    intro p hnd hp
    simp only [List.map_cons, List.nodup_cons] at hnd
    by_cases hk : (hd.pageNumber == p.pageNumber) = true
    · have hpn : hd.pageNumber = p.pageNumber := by simpa using hk
      have hpeq : p = hd := by
        rcases List.mem_cons.mp hp with rfl | hin
        · rfl
        · exfalso
          apply hnd.1
          rw [hpn]
          exact List.mem_map_of_mem _ hin
      refine ⟨0, ?_, ?_⟩
      · rw [List.findIdx?_cons, if_pos hk]
      · rw [hpeq]
        rfl
    · have hp2 : p ∈ tl := by
        rcases List.mem_cons.mp hp with rfl | hin
        · exact absurd (by simp) hk
        · exact hin
      obtain ⟨idx, h1, h2⟩ := ih p hnd.2 hp2
      refine ⟨idx + 1, ?_, ?_⟩
      · rw [List.findIdx?_cons, if_neg (by simpa using hk), findIdx_shift, h1]
        rfl
      · simpa using h2

theorem filterMap_congr_map {α β : Type} (f : α → Option β) (h : α → β) :
    ∀ (l : List α), (∀ a ∈ l, f a = some (h a)) → l.filterMap f = l.map h := by
  intro l
  induction l with
  | nil => intro _; rfl
  | cons hd tl ih =>
    intro hall
    rw [List.filterMap_cons, hall hd (List.mem_cons_self hd tl), List.map_cons,
      ih (fun a ha => hall a (List.mem_cons_of_mem hd ha))]

theorem runAggregation_eq_map {Item : Type}
    (calcFn : List JsonVal → Except String (CatData Item)) (tag : Item → Nat → Item)
    (g : SelPage → AnalysisRes) (pages : List SelPage)
    (hnodup : (pages.map (fun p => p.pageNumber)).Nodup)
    (hwf : ∀ p ∈ pages, WellFormedPage p)
    (hne : pages.filter hasValidData ≠ []) :
    runAggregation calcFn tag g pages =
      Except.ok ((pages.map (pageOutcome calcFn tag g)).mergeSort
        (fun a b => a.pageNumber ≤ b.pageNumber)) := by
  have hlen : ¬(pages.filter hasValidData).length = 0 := by
    intro hcon
    exact hne (List.length_eq_zero.mp hcon)
  have hvnodup : ((pages.filter hasValidData).map (fun q => q.pageNumber)).Nodup :=
    List.Nodup.sublist (List.Sublist.map _ (List.filter_sublist pages)) hnodup
  have hbody : ∀ p ∈ pages,
      (if p.conversionError.isSome || !p.success then some (errorPage p)
        else
          match (pages.filter hasValidData).findIdx?
              (fun img => img.pageNumber == p.pageNumber) with
          | none => none
          | some idx =>
            match ((pages.filter hasValidData).map g).get? idx with
            | none => none
            | some ar => some (processedPage calcFn tag p ar)) =
        some (pageOutcome calcFn tag g p) := by
    intro p hp
    by_cases hcond : (p.conversionError.isSome || !p.success) = true
    · rw [if_pos hcond]
      unfold pageOutcome
      rw [if_pos hcond]
    · rw [if_neg hcond]
      have hvalid : hasValidData p = true :=
        hasValid_of_cond_false p (hwf p hp) (by revert hcond; cases h : (p.conversionError.isSome || !p.success) <;> simp)
      have hpv : p ∈ pages.filter hasValidData := List.mem_filter.mpr ⟨hp, hvalid⟩
      obtain ⟨idx, h1, h2⟩ := findIdx_map_get g (pages.filter hasValidData) p hvnodup hpv
      rw [h1]
      show (match ((pages.filter hasValidData).map g).get? idx with
        | none => none
        | some ar => some (processedPage calcFn tag p ar)) = _
      rw [h2]
      show some (processedPage calcFn tag p (g p)) = _
      unfold pageOutcome
      rw [if_neg hcond]
  unfold runAggregation
  rw [if_neg hlen]
  show Except.ok ((pages.filterMap (fun p =>
      if p.conversionError.isSome || !p.success then some (errorPage p)
      else
        match (pages.filter hasValidData).findIdx?
            (fun img => img.pageNumber == p.pageNumber) with
        | none => none
        | some idx =>
          match ((pages.filter hasValidData).map g).get? idx with
          | none => none
          | some ar => some (processedPage calcFn tag p ar))).mergeSort
      (fun a b => a.pageNumber ≤ b.pageNumber)) = _
  rw [filterMap_congr_map _ (pageOutcome calcFn tag g) pages hbody]

theorem mergeSort_pairwise_strict {Item : Type} (l : List (PageData Item))
    (hnd : (l.map (fun d => d.pageNumber)).Nodup) :
    (l.mergeSort (fun a b => a.pageNumber ≤ b.pageNumber)).Pairwise
      (fun a b => a.pageNumber < b.pageNumber) := by
  have hsorted := @List.sorted_mergeSort (PageData Item)
    (fun a b => decide (a.pageNumber ≤ b.pageNumber))
    (fun a b c hab hbc => by
      simp only [decide_eq_true_eq] at hab hbc ⊢
      omega)
    (fun a b => by
      rcases Nat.le_total a.pageNumber b.pageNumber with h | h <;> simp [h])
    l
  have hperm : (l.mergeSort (fun a b => a.pageNumber ≤ b.pageNumber)).Perm l :=
    List.mergeSort_perm l _
  have hnd2 : ((l.mergeSort (fun a b => a.pageNumber ≤ b.pageNumber)).map
      (fun d => d.pageNumber)).Nodup :=
    List.Perm.nodup (List.Perm.map _ hperm).symm hnd
  have hne : (l.mergeSort (fun a b => a.pageNumber ≤ b.pageNumber)).Pairwise
      (fun a b => a.pageNumber ≠ b.pageNumber) :=
    List.pairwise_map.mp hnd2
  have hle : (l.mergeSort (fun a b => a.pageNumber ≤ b.pageNumber)).Pairwise
      (fun a b => a.pageNumber ≤ b.pageNumber) :=
    hsorted.imp (fun h => by simpa using h)
  exact (hle.and hne).imp (fun h => lt_of_le_of_ne h.1 h.2)

theorem strict_sorted_unique {Item : Type} (s1 s2 : List (PageData Item))
    (hperm : s1.Perm s2)
    (h1 : s1.Pairwise (fun a b => a.pageNumber < b.pageNumber))
    (h2 : s2.Pairwise (fun a b => a.pageNumber < b.pageNumber)) : s1 = s2 := by
  haveI : IsAntisymm (PageData Item) (fun a b => a.pageNumber < b.pageNumber) :=
    ⟨fun a b hab hba => absurd (lt_trans hab hba) (lt_irrefl _)⟩
  exact List.eq_of_perm_of_sorted hperm h1 h2

theorem map_pageOutcome_keys {Item : Type}
    (calcFn : List JsonVal → Except String (CatData Item)) (tag : Item → Nat → Item)
    (g : SelPage → AnalysisRes) (pages : List SelPage) :
    (pages.map (pageOutcome calcFn tag g)).map (fun d => d.pageNumber) =
      pages.map (fun p => p.pageNumber) := by
  rw [List.map_map]
  exact List.map_congr_left (fun p _ => pageOutcome_pageNumber calcFn tag g p)

/-- C7: per-page failure isolation — when at least one selected page has a
valid converted image, the batch runs to completion (`runAggregation` returns
the resequenced aggregate rather than an error) and the aggregate is the sort
of the pointwise per-page outcomes, so each page's entry depends only on that
page's own load result and analysis (a conversion failure on one page cannot
change any other page's entry); a page that failed to load appears in the
aggregate as its `errorPage` with the error field set and all-empty category
data; a valid page's entry is its own processed analysis.  Only when zero
selected pages converted successfully does the batch abort with the single
batch-level error. -/
theorem per_page_failure_isolation {Item : Type}
    (calcFn : List JsonVal → Except String (CatData Item)) (tag : Item → Nat → Item)
    (g : SelPage → AnalysisRes) (pages : List SelPage)
    (hnodup : (pages.map (fun p => p.pageNumber)).Nodup)
    (hwf : ∀ p ∈ pages, WellFormedPage p) :
    (pages.filter hasValidData = [] →
      runAggregation calcFn tag g pages = Except.error "No valid images to process") ∧
    (pages.filter hasValidData ≠ [] →
      runAggregation calcFn tag g pages =
        Except.ok ((pages.map (pageOutcome calcFn tag g)).mergeSort
          (fun a b => a.pageNumber ≤ b.pageNumber))) ∧
    (∀ p ∈ pages, hasValidData p = false →
      pageOutcome calcFn tag g p = errorPage p ∧
      (errorPage p : PageData Item).error =
        some ("Failed to load page: " ++ (p.conversionError.getD "")) ∧
      (errorPage p : PageData Item).data = emptyCatData Item) ∧
    (∀ p ∈ pages, hasValidData p = true →
      pageOutcome calcFn tag g p = processedPage calcFn tag p (g p)) := by
  refine ⟨?_, ?_, ?_, ?_⟩
  · intro hempty
    unfold runAggregation
    rw [if_pos (by rw [hempty]; rfl)]
  · intro hne
    exact runAggregation_eq_map calcFn tag g pages hnodup hwf hne
  · intro p hp hinvalid
    have hcond := cond_true_of_invalid p (hwf p hp) hinvalid
    refine ⟨?_, rfl, rfl⟩
    unfold pageOutcome
    rw [if_pos hcond]
  · intro p hp hvalid
    unfold hasValidData at hvalid
    rw [Bool.and_eq_true, Bool.and_eq_true, Bool.and_eq_true] at hvalid
    have hc : p.conversionError = none := Option.isNone_iff_eq_none.mp hvalid.1.2
    have hs : p.success = true := hvalid.2
    have hcond : ¬((p.conversionError.isSome || !p.success) = true) := by
      simp [hc, hs]
    unfold pageOutcome
    rw [if_neg hcond]

theorem per_page_failure_isolation_witness :
    @runAggregation Nat (fun _ => Except.ok (emptyCatData Nat)) (fun i _ => i)
      (fun _ => ⟨[], "raw", none⟩)
      [⟨1, true, true, none, true⟩, ⟨2, true, true, none, true⟩,
       ⟨3, false, false, some "boom", false⟩, ⟨4, true, true, none, true⟩,
       ⟨5, true, true, none, true⟩] =
      Except.ok (([⟨1, true, true, none, true⟩, ⟨2, true, true, none, true⟩,
       ⟨3, false, false, some "boom", false⟩, ⟨4, true, true, none, true⟩,
       ⟨5, true, true, none, true⟩].map (@pageOutcome Nat
          (fun _ => Except.ok (emptyCatData Nat)) (fun i _ => i)
          (fun _ => ⟨[], "raw", none⟩))).mergeSort
        (fun a b => a.pageNumber ≤ b.pageNumber)) ∧
    @pageOutcome Nat (fun _ => Except.ok (emptyCatData Nat)) (fun i _ => i)
      (fun _ => ⟨[], "raw", none⟩) ⟨3, false, false, some "boom", false⟩ =
      errorPage ⟨3, false, false, some "boom", false⟩ := by
  have h := @per_page_failure_isolation Nat
    (fun _ => Except.ok (emptyCatData Nat)) (fun i _ => i) (fun _ => ⟨[], "raw", none⟩)
    [⟨1, true, true, none, true⟩, ⟨2, true, true, none, true⟩,
     ⟨3, false, false, some "boom", false⟩, ⟨4, true, true, none, true⟩,
     ⟨5, true, true, none, true⟩] (by decide) (by decide)
  exact ⟨h.2.1 (by decide),
    (h.2.2.1 ⟨3, false, false, some "boom", false⟩ (by decide) (by decide)).1⟩

/-- C9: resequenced aggregate — whenever a job whose pages have unique page
numbers produces a terminal aggregate, the entries of that aggregate are
ordered strictly ascending by page number; and the aggregate is independent of
the order in which the pages arrive (any permutation of the page list, i.e.
any completion order, yields the identical resequenced payload). -/
theorem resequenced_aggregate {Item : Type}
    (calcFn : List JsonVal → Except String (CatData Item)) (tag : Item → Nat → Item)
    (g : SelPage → AnalysisRes) (pages1 pages2 : List SelPage)
    (hperm : pages1.Perm pages2)
    (hnodup : (pages1.map (fun p => p.pageNumber)).Nodup)
    (hwf : ∀ p ∈ pages1, WellFormedPage p) :
    (∀ out, runAggregation calcFn tag g pages1 = Except.ok out →
      (out.map (fun d => d.pageNumber)).Pairwise (· < ·)) ∧
    runAggregation calcFn tag g pages1 = runAggregation calcFn tag g pages2 := by
  have hnodup2 : (pages2.map (fun p => p.pageNumber)).Nodup :=
    List.Perm.nodup (hperm.map _) hnodup
  have hwf2 : ∀ p ∈ pages2, WellFormedPage p := fun p hp => hwf p (hperm.mem_iff.mpr hp)
  constructor
  · intro out hout
    by_cases hne : pages1.filter hasValidData = []
    · unfold runAggregation at hout
      rw [if_pos (by rw [hne]; rfl)] at hout
      exact Except.noConfusion hout
    · rw [runAggregation_eq_map calcFn tag g pages1 hnodup hwf hne] at hout
      have hout2 := Except.ok.inj hout
      rw [← hout2]
      have hs := mergeSort_pairwise_strict (pages1.map (pageOutcome calcFn tag g))
        (by rw [map_pageOutcome_keys]; exact hnodup)
      exact List.pairwise_map.mpr hs
  · by_cases hne : pages1.filter hasValidData = []
    · have hne2 : pages2.filter hasValidData = [] := by
        have hpf := hperm.filter hasValidData
        rw [hne] at hpf
        exact hpf.symm.eq_nil
      unfold runAggregation
      rw [if_pos (by rw [hne]; rfl), if_pos (by rw [hne2]; rfl)]
    · have hne2 : pages2.filter hasValidData ≠ [] := by
        intro hcon
        have hpf := hperm.filter hasValidData
        rw [hcon] at hpf
        exact hne hpf.eq_nil
      rw [runAggregation_eq_map calcFn tag g pages1 hnodup hwf hne,
        runAggregation_eq_map calcFn tag g pages2 hnodup2 hwf2 hne2]
      congr 1
      apply strict_sorted_unique
      · exact (List.mergeSort_perm _ _).trans
          ((hperm.map _).trans (List.mergeSort_perm _ _).symm)
      · exact mergeSort_pairwise_strict _ (by rw [map_pageOutcome_keys]; exact hnodup)
      · exact mergeSort_pairwise_strict _ (by rw [map_pageOutcome_keys]; exact hnodup2)

theorem resequenced_aggregate_witness :
    (((([⟨2, true, true, none, true⟩, ⟨1, true, true, none, true⟩].map
        (@pageOutcome Nat (fun _ => Except.ok (emptyCatData Nat)) (fun i _ => i)
          (fun _ => ⟨[], "raw", none⟩))).mergeSort
        (fun a b => a.pageNumber ≤ b.pageNumber)).map
      (fun d => d.pageNumber)).Pairwise (· < ·)) ∧
    @runAggregation Nat (fun _ => Except.ok (emptyCatData Nat)) (fun i _ => i)
        (fun _ => ⟨[], "raw", none⟩)
        [⟨2, true, true, none, true⟩, ⟨1, true, true, none, true⟩] =
      @runAggregation Nat (fun _ => Except.ok (emptyCatData Nat)) (fun i _ => i)
        (fun _ => ⟨[], "raw", none⟩)
        [⟨1, true, true, none, true⟩, ⟨2, true, true, none, true⟩] := by
  have h := @resequenced_aggregate Nat (fun _ => Except.ok (emptyCatData Nat))
    (fun i _ => i) (fun _ => ⟨[], "raw", none⟩)
    [⟨2, true, true, none, true⟩, ⟨1, true, true, none, true⟩]
    [⟨1, true, true, none, true⟩, ⟨2, true, true, none, true⟩]
    (by decide) (by decide) (by decide)
  refine ⟨?_, h.2⟩
  have hruneq := @runAggregation_eq_map Nat (fun _ => Except.ok (emptyCatData Nat))
    (fun i _ => i) (fun _ => ⟨[], "raw", none⟩)
    [⟨2, true, true, none, true⟩, ⟨1, true, true, none, true⟩]
    (by decide) (by decide) (by decide)
  have hpw := h.1 (([⟨2, true, true, none, true⟩,
      ⟨1, true, true, none, true⟩].map (@pageOutcome Nat
        (fun _ => Except.ok (emptyCatData Nat)) (fun i _ => i)
        (fun _ => ⟨[], "raw", none⟩))).mergeSort
      (fun a b => a.pageNumber ≤ b.pageNumber)) hruneq
  exact hpw

theorem geminiFallback_error_empty (text : List Char) :
    (geminiFallback text).2 ≠ none → (geminiFallback text).1 = [] := by
  unfold geminiFallback
  split
  · split
    · intro h; exact absurd rfl h
    · intro _; rfl
    · intro _; rfl
  · intro _; rfl

theorem geminiFallback_none (text : List Char)
    (hseg : extractArraySegment text = none) :
    geminiFallback text = ([], none) := by
  unfold geminiFallback
  rw [hseg]

theorem geminiFallback_arr (text seg : List Char) (a : List JsonVal)
    (hseg : extractArraySegment text = some seg)
    (hj : jsonParse seg = some (JsonVal.jarr a)) :
    geminiFallback text = (a, none) := by
  unfold geminiFallback
  rw [hseg]
  simp only [hj]

theorem geminiFallback_err (text seg : List Char)
    (hseg : extractArraySegment text = some seg)
    (hj : jsonParse seg = none) :
    geminiFallback text = ([], some parseErrorMsg) := by
  unfold geminiFallback
  rw [hseg]
  simp only [hj]

/-- C10 counterexample: the text `[1] ]` contains the parseable JSON array
`[1]`, yet `parseGeminiResponse` does not return that array with a null
error — the trimmed text is bracket-delimited, `JSON.parse` of the whole
text throws (trailing `]`), and the catch branch returns an empty array
together with a non-null parse error. -/
theorem total_response_parsing_counterexample :
    containsParsableJsonArray ['[', '1', ']', ' ', ']'] = true ∧
    parseGeminiResponse ['[', '1', ']', ' ', ']'] = ([], some parseErrorMsg) := by
  constructor
  · decide
  · rfl

/-- C10 (amended): `parseGeminiResponse` is total and returns a pair whose
first component is always an array: a parse failure always comes with an
empty parsed array (so an empty result with null error and a parse failure
are never conflated); when the trimmed text is bracket-delimited and parses
as a JSON array, that array is returned with a null error; when that direct
parse throws, an empty array is returned with a non-null error; otherwise the
segment from the first `[` to the last `]` of the raw text is tried — no such
segment yields an empty array with null error (a blank page is not an error),
a segment parsing as a JSON array yields that array with a null error, and a
segment on which parsing throws yields an empty array with a non-null
error. -/
theorem total_response_parsing (text : List Char) :
    ((parseGeminiResponse text).2 ≠ none → (parseGeminiResponse text).1 = []) ∧
    (∀ a, (startsWithOpenBracket (trimChars text) &&
        endsWithCloseBracket (trimChars text)) = true →
      jsonParse (trimChars text) = some (JsonVal.jarr a) →
      parseGeminiResponse text = (a, none)) ∧
    ((startsWithOpenBracket (trimChars text) &&
        endsWithCloseBracket (trimChars text)) = true →
      jsonParse (trimChars text) = none →
      parseGeminiResponse text = ([], some parseErrorMsg)) ∧
    (¬(startsWithOpenBracket (trimChars text) &&
        endsWithCloseBracket (trimChars text)) = true →
      extractArraySegment text = none →
      parseGeminiResponse text = ([], none)) ∧
    (∀ a seg, ¬(startsWithOpenBracket (trimChars text) &&
        endsWithCloseBracket (trimChars text)) = true →
      extractArraySegment text = some seg →
      jsonParse seg = some (JsonVal.jarr a) →
      parseGeminiResponse text = (a, none)) ∧
    (∀ seg, ¬(startsWithOpenBracket (trimChars text) &&
        endsWithCloseBracket (trimChars text)) = true →
      extractArraySegment text = some seg →
      jsonParse seg = none →
      parseGeminiResponse text = ([], some parseErrorMsg)) := by
  refine ⟨?_, ?_, ?_, ?_, ?_, ?_⟩
  · by_cases hb : (startsWithOpenBracket (trimChars text) &&
        endsWithCloseBracket (trimChars text)) = true
    · simp only [parseGeminiResponse]
      rw [if_pos hb]
      cases hj : jsonParse (trimChars text) with
      | none => intro _; rfl
      | some v =>
        cases v with
        | jarr a => intro h; exact absurd rfl h
        | jnull => exact geminiFallback_error_empty text
        | jbool b => exact geminiFallback_error_empty text
        | jnum r => exact geminiFallback_error_empty text
        | jstr s => exact geminiFallback_error_empty text
        | jobj m => exact geminiFallback_error_empty text
    · simp only [parseGeminiResponse]
      rw [if_neg hb]
      exact geminiFallback_error_empty text
  · intro a hb hj
    simp only [parseGeminiResponse]
    rw [if_pos hb]
    simp only [hj]
  · intro hb hj
    simp only [parseGeminiResponse]
    rw [if_pos hb]
    simp only [hj]
  · intro hb hseg
    simp only [parseGeminiResponse]
    rw [if_neg hb]
    exact geminiFallback_none text hseg
  · intro a seg hb hseg hj
    simp only [parseGeminiResponse]
    rw [if_neg hb]
    exact geminiFallback_arr text seg a hseg hj
  · intro seg hb hseg hj
    simp only [parseGeminiResponse]
    rw [if_neg hb]
    exact geminiFallback_err text seg hseg hj

theorem total_response_parsing_witness :
    parseGeminiResponse ['[', '1', ']'] = ([JsonVal.jnum ['1']], none) :=
  (total_response_parsing ['[', '1', ']']).2.1 [JsonVal.jnum ['1']] (by rfl) (by rfl)
